import Mathlib

/-!
Verification development for the hours time tracker.

Part 1 models the persistence core (tasks and task-log entries in the
SQLite store).  The implementation file internal/persistence/queries.go is
not part of the provided sources; the operations below are therefore
modelled from the specification (spec.md sections 3 and 4.1), with
signatures taken from their callers and tests under src/.  Timestamps are
whole seconds represented as integers, ids are naturals, and the store is
a pair of lists mirroring the task and task_log tables.

Part 2 embeds the interactive UI reducer functions that are present in
the sources (internal/ui handle code) together with the CLI rendering of
the active task.
-/

namespace Hours

/-- A row of the task table: id, summary, denormalized total of seconds
spent over closed entries, and the active flag. -/
structure Task where
  id : Nat
  summary : String
  secsSpent : Int
  active : Bool
deriving Repr, DecidableEq

/-- A row of the task_log table.  endTs = none means the entry is open;
activeFlag marks the row as the currently tracked one. -/
structure TaskLogEntry where
  id : Nat
  taskId : Nat
  beginTs : Int
  endTs : Option Int
  secsSpent : Int
  comment : Option String
  activeFlag : Bool
deriving Repr, DecidableEq

/-- The whole persisted state: the two tables plus the next fresh log id
(modelling the sqlite autoincrement sequence). -/
structure Store where
  tasks : List Task
  logs : List TaskLogEntry
  nextLogId : Nat
deriving Repr, DecidableEq

/-- Typed errors surfaced by the persistence core, per spec section 7:
already-tracking, no-task-active and not-found conditions. -/
inductive PErr where
  | alreadyTracking
  | noTaskActive
  | notFound
  | taskLogNotFound
deriving Repr, DecidableEq

/-- Contribution of one log entry to the closed-seconds sum of task tid:
its secsSpent when it is a closed entry owned by tid, else zero. -/
def contrib (tid : Nat) (e : TaskLogEntry) : Int :=
  if e.taskId = tid ∧ e.endTs.isSome then e.secsSpent else 0

/-- Sum of secsSpent over the closed log entries owned by task tid. -/
def closedSecs (logs : List TaskLogEntry) (tid : Nat) : Int :=
  (logs.map (contrib tid)).sum

/-- Number of rows with activeFlag set (as an integer sum). -/
def activeMeasure (e : TaskLogEntry) : Int :=
  if e.activeFlag then 1 else 0

/-- Count of active (open) rows in the log table. -/
def activeCount (logs : List TaskLogEntry) : Int :=
  (logs.map activeMeasure).sum

/-- Adds d seconds to the stored total of the task with the given id
(the UPDATE task SET secs_spent = secs_spent + d WHERE id = tid step that
every mutation runs inside its transaction). -/
def addSecs (tasks : List Task) (tid : Nat) (d : Int) : List Task :=
  tasks.map fun t => if t.id = tid then { t with secsSpent := t.secsSpent + d } else t

/-- Looks a log row up by id. -/
def findLog (logs : List TaskLogEntry) (tlID : Nat) : Option TaskLogEntry :=
  logs.find? fun e => e.id = tlID

/-- The UPDATE task_log ... WHERE id = tlID step: rewrites the row with
the given id through f and leaves every other row alone. -/
def updateById (logs : List TaskLogEntry) (tlID : Nat)
    (f : TaskLogEntry → TaskLogEntry) : List TaskLogEntry :=
  logs.map fun x => if x.id = tlID then f x else x

/-- The DELETE FROM task_log WHERE id = tlID step. -/
def deleteById (logs : List TaskLogEntry) (tlID : Nat) : List TaskLogEntry :=
  logs.filter fun x => ¬ x.id = tlID

/-- Seconds credited when a tracking session is closed, per spec section
4.1: seconds-spent = max(0, end - begin) truncated to whole seconds. -/
def finishSecs (beginTS endTS : Int) : Int :=
  max 0 (endTS - beginTS)

/-- Modelled from the spec: StartTracking / InsertNewTL (implementation
file internal/persistence/queries.go is not under src).  Inserts an open
log entry for the task; fails with the typed AlreadyTracking error when
any entry is already open.  The guard models the storage-level trigger
prevent_duplicate_active_insert described by the architecture notes and
spec sections 3 and 4.1; on failure the store is untouched. -/
def InsertNewTL (s : Store) (taskID : Nat) (beginTS : Int) :
    Except PErr (Store × Nat) :=
  if s.logs.any (fun e => e.activeFlag) then
    .error .alreadyTracking
  else
    .ok ({ s with
            logs := s.logs ++
              [{ id := s.nextLogId, taskId := taskID, beginTs := beginTS,
                 endTs := none, secsSpent := 0, comment := none, activeFlag := true }],
            nextLogId := s.nextLogId + 1 },
         s.nextLogId)

/-- Modelled from the spec: FinishTracking / FinishActiveTL (missing
queries.go; signature from the tests in queries_test.go).  Within one
transaction it sets the begin and end timestamps, the computed
seconds-spent and the comment of the open entry, clears its active flag
and adds the seconds to the owning task total; it fails when the entry is
missing, not open, or not owned by the given task. -/
def FinishActiveTL (s : Store) (tlID taskID : Nat) (beginTS endTS : Int)
    (numSeconds : Int) (comment : Option String) : Except PErr Store :=
  match findLog s.logs tlID with
  | none => .error .notFound
  | some e =>
    if e.activeFlag = true ∧ e.taskId = taskID then
      .ok { s with
              logs := updateById s.logs tlID fun x =>
                { x with beginTs := beginTS, endTs := some endTS,
                         secsSpent := numSeconds, comment := comment,
                         activeFlag := false },
              tasks := addSecs s.tasks taskID numSeconds }
    else .error .notFound

/-- Modelled from the spec: QuickSwitch / QuickSwitchActiveTL (missing
queries.go).  Within one transaction it closes the currently open entry
as of switchTS with the same accounting as finish-tracking (using the
entry's possibly edited begin timestamp and keeping its comment), credits
the seconds to the owning task total, and opens a new entry on newTaskID
beginning at switchTS with no comment.  Fails with NoTaskActive when no
entry is open. -/
def QuickSwitchActiveTL (s : Store) (newTaskID : Nat) (switchTS : Int) :
    Except PErr (Store × Nat) :=
  match s.logs.find? (fun e => e.activeFlag) with
  | none => .error .noTaskActive
  | some e =>
    let secs := finishSecs e.beginTs switchTS
    let logsClosed := updateById s.logs e.id fun x =>
      { x with endTs := some switchTS, secsSpent := secs, activeFlag := false }
    .ok ({ s with
            logs := logsClosed ++
              [{ id := s.nextLogId, taskId := newTaskID, beginTs := switchTS,
                 endTs := none, secsSpent := 0, comment := none, activeFlag := true }],
            tasks := addSecs s.tasks e.taskId secs,
            nextLogId := s.nextLogId + 1 },
         s.nextLogId)

/-- Modelled from the spec: InsertManualEntry / InsertManualTL (missing
queries.go).  Inserts an already closed entry with seconds-spent equal to
end minus begin and adds that amount to the owning task total. -/
def InsertManualTL (s : Store) (taskID : Nat) (beginTS endTS : Int)
    (comment : Option String) : Except PErr (Store × Nat) :=
  let secs := endTS - beginTS
  .ok ({ s with
          logs := s.logs ++
            [{ id := s.nextLogId, taskId := taskID, beginTs := beginTS,
               endTs := some endTS, secsSpent := secs, comment := comment,
               activeFlag := false }],
          tasks := addSecs s.tasks taskID secs,
          nextLogId := s.nextLogId + 1 },
       s.nextLogId)

/-- Modelled from the spec: EditClosedEntry / EditSavedTL (missing
queries.go).  Recomputes seconds-spent from the new timestamps, adjusts
the owning task total by the delta, and updates begin, end and comment of
the closed entry; fails when the entry is missing or open. -/
def EditSavedTL (s : Store) (tlID : Nat) (newBeginTS newEndTS : Int)
    (newComment : Option String) : Except PErr Store :=
  match findLog s.logs tlID with
  | none => .error .notFound
  | some e =>
    if e.endTs.isSome then
      let newSecs := newEndTS - newBeginTS
      .ok { s with
              logs := updateById s.logs tlID fun x =>
                { x with beginTs := newBeginTS, endTs := some newEndTS,
                         secsSpent := newSecs, comment := newComment },
              tasks := addSecs s.tasks e.taskId (newSecs - e.secsSpent) }
    else .error .notFound

/-- Modelled from the spec: DeleteClosedEntry / DeleteTL (missing
queries.go).  Removes the closed entry row and decrements the owning task
total by the stored seconds-spent of that entry. -/
def DeleteTL (s : Store) (tlID : Nat) : Except PErr Store :=
  match findLog s.logs tlID with
  | none => .error .notFound
  | some e =>
    if e.endTs.isSome then
      .ok { s with
              logs := deleteById s.logs tlID,
              tasks := addSecs s.tasks e.taskId (-e.secsSpent) }
    else .error .notFound

/-- Modelled from the spec: MoveEntry / MoveTaskLog (missing queries.go;
signature from its caller handleTargetTaskSelection and the tests).
Updates the owning task id of the entry, decrements the old task total
and increments the new task total by secsToMove; fails with the typed
not-found error when the entry does not exist. -/
def MoveTaskLog (s : Store) (tlID oldTaskID newTaskID : Nat)
    (secsToMove : Int) : Except PErr Store :=
  match findLog s.logs tlID with
  | none => .error .taskLogNotFound
  | some _ =>
    .ok { s with
            logs := updateById s.logs tlID fun x => { x with taskId := newTaskID },
            tasks := addSecs (addSecs s.tasks oldTaskID (-secsToMove)) newTaskID secsToMove }

/-- Does task tid own any log entry with begin or end after the cutoff. -/
def hasRecentEntry (logs : List TaskLogEntry) (tid : Nat) (cutoff : Int) : Bool :=
  logs.any fun e =>
    e.taskId == tid && (decide (cutoff < e.beginTs) || (match e.endTs with
      | some en => decide (cutoff < en)
      | none => false))

/-- Does task tid own any currently open entry. -/
def hasOpenEntry (logs : List TaskLogEntry) (tid : Nat) : Bool :=
  logs.any fun e => e.taskId = tid ∧ e.activeFlag = true

/-- Is this task selected by the archive sweep: active, with no entry
after the cutoff and no open entry. -/
def staleTask (logs : List TaskLogEntry) (cutoff : Int) (t : Task) : Bool :=
  t.active && !(hasRecentEntry logs t.id cutoff) && !(hasOpenEntry logs t.id)

/-- Modelled from the spec: ArchiveStaleTasks (missing queries.go).
Within one transaction, sets inactive every active task that has no log
entry with begin or end after the cutoff and no currently open entry,
and returns the number of tasks archived. -/
def ArchiveStaleTasks (s : Store) (cutoff : Int) : Store × Nat :=
  ({ s with
      tasks := s.tasks.map fun t =>
        if staleTask s.logs cutoff t then { t with active := false } else t },
   (s.tasks.filter (staleTask s.logs cutoff)).length)

/-- The totals invariant of spec section 3: every stored task total
equals the sum of secsSpent over the closed log entries it owns. -/
def TotalsOK (tasks : List Task) (logs : List TaskLogEntry) : Prop :=
  ∀ t ∈ tasks, t.secsSpent = closedSecs logs t.id

/-- Glossary invariant: a row is flagged active exactly when its end
timestamp is absent. -/
def OpenIffActive (logs : List TaskLogEntry) : Prop :=
  ∀ e ∈ logs, (e.activeFlag = true ↔ e.endTs = none)

/-- Log ids are below the autoincrement counter and pairwise distinct. -/
def IdsOK (logs : List TaskLogEntry) (n : Nat) : Prop :=
  (∀ e ∈ logs, e.id < n) ∧ logs.Pairwise (fun a b => a.id ≠ b.id)

/-- Well-formedness of a store: totals invariant, the single open entry
invariant, open-iff-active, and id discipline. -/
def WF (s : Store) : Prop :=
  TotalsOK s.tasks s.logs ∧ activeCount s.logs ≤ 1 ∧
    OpenIffActive s.logs ∧ IdsOK s.logs s.nextLogId

/-- The log-entry mutations issued by the application, with the
parameters their UI call sites supply (handle code under src). -/
inductive Op where
  | start (taskID : Nat) (beginTS : Int)
  | finishTracking (tlID taskID : Nat) (beginTS endTS : Int) (comment : Option String)
  | quickSwitch (newTaskID : Nat) (switchTS : Int)
  | insertManual (taskID : Nat) (beginTS endTS : Int) (comment : Option String)
  | editClosed (tlID : Nat) (newBeginTS newEndTS : Int) (newComment : Option String)
  | deleteClosed (tlID : Nat)
  | move (tlID newTaskID : Nat)
deriving Repr, DecidableEq

/-- Runs one mutation against the store; a failing operation leaves the
store unchanged (the transaction rolls back).  The finish mutation
computes seconds like getCmdToFinishTrackingActiveTL feeding
FinishTracking, and the move mutation passes the entry fields the way
handleRequestToMoveTaskLog and handleTargetTaskSelection do (entry id,
its current owner and its stored secsSpent); the moved entry comes from
the closed-entries list. -/
def runOp (s : Store) (op : Op) : Store :=
  match op with
  | .start taskID beginTS =>
    match InsertNewTL s taskID beginTS with
    | .ok (s', _) => s'
    | .error _ => s
  | .finishTracking tlID taskID beginTS endTS comment =>
    match FinishActiveTL s tlID taskID beginTS endTS (finishSecs beginTS endTS) comment with
    | .ok s' => s'
    | .error _ => s
  | .quickSwitch newTaskID switchTS =>
    match QuickSwitchActiveTL s newTaskID switchTS with
    | .ok (s', _) => s'
    | .error _ => s
  | .insertManual taskID beginTS endTS comment =>
    match InsertManualTL s taskID beginTS endTS comment with
    | .ok (s', _) => s'
    | .error _ => s
  | .editClosed tlID newBeginTS newEndTS newComment =>
    match EditSavedTL s tlID newBeginTS newEndTS newComment with
    | .ok s' => s'
    | .error _ => s
  | .deleteClosed tlID =>
    match DeleteTL s tlID with
    | .ok s' => s'
    | .error _ => s
  | .move tlID newTaskID =>
    match findLog s.logs tlID with
    | none => s
    | some e =>
      if e.endTs.isSome then
        match MoveTaskLog s tlID e.taskId newTaskID e.secsSpent with
        | .ok s' => s'
        | .error _ => s
      else s

/-- Runs a sequence of mutations left to right. -/
def applyOps (ops : List Op) (s : Store) : Store :=
  ops.foldl runOp s

/-- A successful lookup returns a member row carrying the looked-up id. -/
theorem findLog_mem {L : List TaskLogEntry} {i : Nat} {e : TaskLogEntry}
    (h : findLog L i = some e) : e ∈ L ∧ e.id = i := by
  refine ⟨List.mem_of_find?_eq_some h, ?_⟩
  have := List.find?_some h
  simpa using this

/-- Updating an id that occurs nowhere in the list is the identity. -/
theorem updateById_of_not_mem (f : TaskLogEntry → TaskLogEntry) {i : Nat}
    {L : List TaskLogEntry} (h : ∀ x ∈ L, x.id ≠ i) :
    updateById L i f = L := by
  induction L with
  | nil => rfl
  | cons a t ih =>
    have ha : a.id ≠ i := h a (by simp)
    have ht : ∀ x ∈ t, x.id ≠ i := fun x hx => h x (by simp [hx])
    simp [updateById] at ih ⊢
    exact ⟨by simp [ha], ih ht⟩

/-- Effect of a by-id row update on any additive row measure, for lists
with pairwise distinct ids: the sum moves by the delta of the one row
that was found. -/
theorem sum_updateById (μ : TaskLogEntry → Int) (f : TaskLogEntry → TaskLogEntry)
    {i : Nat} :
    ∀ {L : List TaskLogEntry}, L.Pairwise (fun a b => a.id ≠ b.id) →
      ∀ {e : TaskLogEntry}, findLog L i = some e →
      ((updateById L i f).map μ).sum = (L.map μ).sum + (μ (f e) - μ e) := by
  intro L
  induction L with
  | nil => intro _ e h; simp [findLog] at h
  | cons a t ih =>
    intro hp e hfind
    rcases List.pairwise_cons.mp hp with ⟨hhead, htail⟩
    by_cases ha : a.id = i
    · have : findLog (a :: t) i = some a := by
        simp [findLog, List.find?_cons_of_pos, ha]
      rw [this] at hfind
      cases hfind
      have htne : ∀ x ∈ t, x.id ≠ i := by
        intro x hx
        have := hhead x hx
        omega
      have hid : updateById t i f = t := updateById_of_not_mem f htne
      have hstep : updateById (a :: t) i f = f a :: t := by
        show (if a.id = i then f a else a) :: updateById t i f = f a :: t
        rw [if_pos ha, hid]
      rw [hstep, List.map_cons, List.sum_cons, List.map_cons, List.sum_cons]
      ring
    · have hfind' : findLog t i = some e := by
        have : findLog (a :: t) i = findLog t i := by
          simp [findLog, List.find?_cons_of_neg, ha]
        rw [this] at hfind; exact hfind
      have hstep : updateById (a :: t) i f = a :: updateById t i f := by
        show (if a.id = i then f a else a) :: updateById t i f = _
        rw [if_neg ha]
      rw [hstep, List.map_cons, List.sum_cons, ih htail hfind',
        List.map_cons, List.sum_cons]
      ring

/-- Effect of a by-id row deletion on any additive row measure, for
lists with pairwise distinct ids. -/
theorem sum_deleteById (μ : TaskLogEntry → Int) {i : Nat} :
    ∀ {L : List TaskLogEntry}, L.Pairwise (fun a b => a.id ≠ b.id) →
      ∀ {e : TaskLogEntry}, findLog L i = some e →
      ((deleteById L i).map μ).sum = (L.map μ).sum - μ e := by
  intro L
  induction L with
  | nil => intro _ e h; simp [findLog] at h
  | cons a t ih =>
    intro hp e hfind
    rcases List.pairwise_cons.mp hp with ⟨hhead, htail⟩
    by_cases ha : a.id = i
    · have : findLog (a :: t) i = some a := by
        simp [findLog, List.find?_cons_of_pos, ha]
      rw [this] at hfind
      cases hfind
      have htne : ∀ x ∈ t, x.id ≠ i := by
        intro x hx
        have := hhead x hx
        omega
      have hid : deleteById t i = t := by
        apply List.filter_eq_self.mpr
        intro x hx
        simpa using htne x hx
      have hstep : deleteById (a :: t) i = deleteById t i := by
        simp [deleteById, List.filter_cons, ha]
      rw [hstep, hid, List.map_cons, List.sum_cons]
      ring
    · have hfind' : findLog t i = some e := by
        have : findLog (a :: t) i = findLog t i := by
          simp [findLog, List.find?_cons_of_neg, ha]
        rw [this] at hfind; exact hfind
      have hstep : deleteById (a :: t) i = a :: deleteById t i := by
        simp [deleteById, List.filter_cons, ha]
      rw [hstep]
      simp only [List.map_cons, List.sum_cons]
      rw [ih htail hfind']
      ring

/-- Appending one row adds its measure to the sum. -/
theorem sum_append_single (μ : TaskLogEntry → Int) (L : List TaskLogEntry)
    (e : TaskLogEntry) :
    ((L ++ [e]).map μ).sum = (L.map μ).sum + μ e := by
  simp

/-- closedSecs after a by-id update moves by the contribution delta of
the updated row. -/
theorem closedSecs_updateById (f : TaskLogEntry → TaskLogEntry) {i : Nat}
    {L : List TaskLogEntry} (hp : L.Pairwise (fun a b => a.id ≠ b.id))
    {e : TaskLogEntry} (hf : findLog L i = some e) (x : Nat) :
    closedSecs (updateById L i f) x
      = closedSecs L x + (contrib x (f e) - contrib x e) :=
  sum_updateById (contrib x) f hp hf

/-- closedSecs after a by-id delete drops the contribution of the
deleted row. -/
theorem closedSecs_deleteById {i : Nat}
    {L : List TaskLogEntry} (hp : L.Pairwise (fun a b => a.id ≠ b.id))
    {e : TaskLogEntry} (hf : findLog L i = some e) (x : Nat) :
    closedSecs (deleteById L i) x = closedSecs L x - contrib x e :=
  sum_deleteById (contrib x) hp hf

/-- closedSecs after appending one row gains its contribution. -/
theorem closedSecs_append (L : List TaskLogEntry) (e : TaskLogEntry) (x : Nat) :
    closedSecs (L ++ [e]) x = closedSecs L x + contrib x e :=
  sum_append_single (contrib x) L e

/-- Pointwise task-total adjustment by a per-id delta function. -/
def mapAdd (dl : Nat → Int) (tasks : List Task) : List Task :=
  tasks.map fun t => { t with secsSpent := t.secsSpent + dl t.id }

/-- addSecs is the pointwise adjustment concentrated on one task id. -/
theorem addSecs_eq_mapAdd (tasks : List Task) (tid : Nat) (d : Int) :
    addSecs tasks tid d = mapAdd (fun x => if x = tid then d else 0) tasks := by
  unfold addSecs mapAdd
  apply List.map_congr_left
  intro t _
  by_cases h : t.id = tid
  · simp [h]
  · simp [h]

/-- Two pointwise adjustments compose by adding the deltas. -/
theorem mapAdd_mapAdd (dl1 dl2 : Nat → Int) (tasks : List Task) :
    mapAdd dl2 (mapAdd dl1 tasks) = mapAdd (fun x => dl1 x + dl2 x) tasks := by
  unfold mapAdd
  rw [List.map_map]
  apply List.map_congr_left
  intro t _
  simp [add_assoc]

/-- Transfer of the totals invariant through a pointwise task-total
adjustment, given that the closed-seconds sums moved by the same delta. -/
theorem TotalsOK_mapAdd {tasks : List Task} {L L' : List TaskLogEntry}
    {dl : Nat → Int} (h : TotalsOK tasks L)
    (hd : ∀ x, closedSecs L' x = closedSecs L x + dl x) :
    TotalsOK (mapAdd dl tasks) L' := by
  intro t ht
  simp only [mapAdd, List.mem_map] at ht
  obtain ⟨t0, ht0, rfl⟩ := ht
  simp only
  rw [hd, ← h t0 ht0]

/-- Transfer of the totals invariant through one task-total adjustment. -/
theorem TotalsOK_addSecs {tasks : List Task} {L L' : List TaskLogEntry}
    {tid : Nat} {d : Int} (h : TotalsOK tasks L)
    (hd : ∀ x, closedSecs L' x = closedSecs L x + (if x = tid then d else 0)) :
    TotalsOK (addSecs tasks tid d) L' := by
  rw [addSecs_eq_mapAdd]
  exact TotalsOK_mapAdd h hd

/-- Transfer of the totals invariant through two chained task-total
adjustments (the move-entry transaction). -/
theorem TotalsOK_addSecs_two {tasks : List Task} {L L' : List TaskLogEntry}
    {tid1 tid2 : Nat} {d1 d2 : Int} (h : TotalsOK tasks L)
    (hd : ∀ x, closedSecs L' x
      = closedSecs L x + (if x = tid1 then d1 else 0) + (if x = tid2 then d2 else 0)) :
    TotalsOK (addSecs (addSecs tasks tid1 d1) tid2 d2) L' := by
  rw [addSecs_eq_mapAdd, addSecs_eq_mapAdd, mapAdd_mapAdd]
  apply TotalsOK_mapAdd h
  intro x
  rw [hd x, add_assoc]

/-- Id discipline survives a by-id row update that keeps row ids. -/
theorem IdsOK_updateById {L : List TaskLogEntry} {n i : Nat}
    {f : TaskLogEntry → TaskLogEntry} (hf : ∀ x, (f x).id = x.id)
    (h : IdsOK L n) : IdsOK (updateById L i f) n := by
  have hg : ∀ x : TaskLogEntry, (if x.id = i then f x else x).id = x.id := by
    intro x
    by_cases hx : x.id = i
    · simp [hx, hf]
    · simp [hx]
  constructor
  · intro e he
    simp only [updateById, List.mem_map] at he
    obtain ⟨x, hx, rfl⟩ := he
    rw [hg]
    exact h.1 x hx
  · rw [updateById, List.pairwise_map]
    exact h.2.imp (by intro a b hab; rw [hg, hg]; exact hab)

/-- Id discipline survives a by-id row deletion. -/
theorem IdsOK_deleteById {L : List TaskLogEntry} {n i : Nat}
    (h : IdsOK L n) : IdsOK (deleteById L i) n := by
  constructor
  · intro e he
    exact h.1 e (List.mem_of_mem_filter he)
  · exact h.2.sublist (List.filter_sublist L)

/-- Id discipline survives appending one row with the fresh id and
bumping the counter. -/
theorem IdsOK_append {L : List TaskLogEntry} {n : Nat} {e : TaskLogEntry}
    (h : IdsOK L n) (he : e.id = n) : IdsOK (L ++ [e]) (n + 1) := by
  constructor
  · intro x hx
    rcases List.mem_append.mp hx with hx | hx
    · exact Nat.lt_succ_of_lt (h.1 x hx)
    · simp at hx
      subst hx
      omega
  · rw [List.pairwise_append]
    refine ⟨h.2, List.pairwise_singleton _ _, ?_⟩
    intro a ha b hb
    simp at hb
    subst hb
    have := h.1 a ha
    omega

/-- An open entry contributes nothing to any closed-seconds sum. -/
theorem contrib_open {e : TaskLogEntry} (h : e.endTs = none) (x : Nat) :
    contrib x e = 0 := by
  simp [contrib, h]

/-- A closed entry contributes its stored seconds to its owner. -/
theorem contrib_closed {e : TaskLogEntry} (h : e.endTs.isSome = true) (x : Nat) :
    contrib x e = if e.taskId = x then e.secsSpent else 0 := by
  simp [contrib, h]

/-- activeCount of a list with no flagged row is zero. -/
theorem activeCount_zero {L : List TaskLogEntry}
    (h : ∀ e ∈ L, e.activeFlag = false) : activeCount L = 0 := by
  induction L with
  | nil => rfl
  | cons a t ih =>
    have ha := h a (by simp)
    have ht : ∀ e ∈ t, e.activeFlag = false := by
      intro e he
      exact h e (by simp [he])
    simp [activeCount, activeMeasure, ha] at ih ⊢
    exact ih ht

/-- In a list with pairwise distinct ids, looking up the id of a member
returns that member. -/
theorem findLog_of_mem {L : List TaskLogEntry}
    (hp : L.Pairwise (fun a b => a.id ≠ b.id)) {e : TaskLogEntry} (he : e ∈ L) :
    findLog L e.id = some e := by
  induction L with
  | nil => cases he
  | cons a t ih =>
    rcases List.pairwise_cons.mp hp with ⟨hhead, htail⟩
    rcases List.mem_cons.mp he with rfl | het
    · simp [findLog, List.find?_cons_of_pos]
    · have hne : a.id ≠ e.id := hhead e het
      have : findLog (a :: t) e.id = findLog t e.id := by
        simp [findLog, List.find?_cons_of_neg, hne]
      rw [this]
      exact ih htail het

/-- In a list with pairwise distinct ids, two members with the same id
are the same row. -/
theorem mem_id_unique {L : List TaskLogEntry}
    (hp : L.Pairwise (fun a b => a.id ≠ b.id)) {x e : TaskLogEntry}
    (hx : x ∈ L) (he : e ∈ L) (hid : x.id = e.id) : x = e := by
  induction L with
  | nil => cases hx
  | cons a t ih =>
    rcases List.pairwise_cons.mp hp with ⟨hhead, htail⟩
    rcases List.mem_cons.mp hx with rfl | hxt
    · rcases List.mem_cons.mp he with rfl | het
      · rfl
      · exact absurd hid (hhead e het)
    · rcases List.mem_cons.mp he with rfl | het
      · exact absurd hid.symm (hhead x hxt)
      · exact ih htail hxt het

/-- The updated image of the found row is a member of the update. -/
theorem mem_updateById {L : List TaskLogEntry} {i : Nat} {e : TaskLogEntry}
    (f : TaskLogEntry → TaskLogEntry) (hf : findLog L i = some e) :
    f e ∈ updateById L i f := by
  obtain ⟨hmem, hid⟩ := findLog_mem hf
  have : (if e.id = i then f e else e) ∈ updateById L i f :=
    List.mem_map_of_mem _ hmem
  rwa [if_pos hid] at this

/-- Open-iff-active survives a by-id update whose image keeps the
relationship for the updated row. -/
theorem OpenIffActive_updateById {L : List TaskLogEntry} {i : Nat}
    {e : TaskLogEntry} {f : TaskLogEntry → TaskLogEntry}
    (hp : L.Pairwise (fun a b => a.id ≠ b.id)) (hfind : findLog L i = some e)
    (hO : OpenIffActive L)
    (hfe : ((f e).activeFlag = true ↔ (f e).endTs = none)) :
    OpenIffActive (updateById L i f) := by
  intro y hy
  simp only [updateById, List.mem_map] at hy
  obtain ⟨x, hx, rfl⟩ := hy
  by_cases hxid : x.id = i
  · have hxe : x = e := by
      apply mem_id_unique hp hx (findLog_mem hfind).1
      rw [hxid, (findLog_mem hfind).2]
    rw [if_pos hxid, hxe]
    exact hfe
  · rw [if_neg hxid]
    exact hO x hx

/-- Open-iff-active survives appending a row that satisfies it. -/
theorem OpenIffActive_append {L : List TaskLogEntry} {e : TaskLogEntry}
    (hO : OpenIffActive L) (he : e.activeFlag = true ↔ e.endTs = none) :
    OpenIffActive (L ++ [e]) := by
  intro x hx
  rcases List.mem_append.mp hx with hx | hx
  · exact hO x hx
  · simp at hx
    subst hx
    exact he

/-- Open-iff-active survives a by-id deletion. -/
theorem OpenIffActive_deleteById {L : List TaskLogEntry} {i : Nat}
    (hO : OpenIffActive L) : OpenIffActive (deleteById L i) := by
  intro x hx
  exact hO x (List.mem_of_mem_filter hx)

/-- activeCount after a by-id update. -/
theorem activeCount_updateById {L : List TaskLogEntry} {i : Nat}
    {e : TaskLogEntry} (f : TaskLogEntry → TaskLogEntry)
    (hp : L.Pairwise (fun a b => a.id ≠ b.id)) (hfind : findLog L i = some e) :
    activeCount (updateById L i f)
      = activeCount L + (activeMeasure (f e) - activeMeasure e) :=
  sum_updateById activeMeasure f hp hfind

/-- activeCount after a by-id deletion. -/
theorem activeCount_deleteById {L : List TaskLogEntry} {i : Nat}
    {e : TaskLogEntry}
    (hp : L.Pairwise (fun a b => a.id ≠ b.id)) (hfind : findLog L i = some e) :
    activeCount (deleteById L i) = activeCount L - activeMeasure e :=
  sum_deleteById activeMeasure hp hfind

/-- activeCount after appending one row. -/
theorem activeCount_append (L : List TaskLogEntry) (e : TaskLogEntry) :
    activeCount (L ++ [e]) = activeCount L + activeMeasure e :=
  sum_append_single activeMeasure L e

/-- Id discipline is monotone in the counter. -/
theorem IdsOK_mono {L : List TaskLogEntry} {n : Nat}
    (h : IdsOK L n) : IdsOK L (n + 1) :=
  ⟨fun e he => Nat.lt_succ_of_lt (h.1 e he), h.2⟩

/-- Starting a tracking session preserves well-formedness. -/
theorem WF_InsertNewTL {s : Store} {taskID : Nat} {beginTS : Int}
    {s' : Store} {newId : Nat} (hwf : WF s)
    (h : InsertNewTL s taskID beginTS = .ok (s', newId)) : WF s' := by
  obtain ⟨hT, hA, hO, hI⟩ := hwf
  unfold InsertNewTL at h
  by_cases hany : s.logs.any (fun e => e.activeFlag) = true
  · simp [hany] at h
  · simp only [hany, Bool.false_eq_true, if_neg, ite_false, Except.ok.injEq,
      Prod.mk.injEq] at h
    obtain ⟨hs, _⟩ := h
    subst hs
    have hflags : ∀ e ∈ s.logs, e.activeFlag = false := by
      intro e he
      by_contra hc
      exact hany (List.any_eq_true.mpr ⟨e, he, by simpa using hc⟩)
    refine ⟨?_, ?_, ?_, ?_⟩
    · intro t ht
      rw [closedSecs_append, contrib_open rfl, add_zero]
      exact hT t ht
    · rw [activeCount_append, activeCount_zero hflags]
      simp [activeMeasure]
    · exact OpenIffActive_append hO (by simp)
    · exact IdsOK_append hI rfl

/-- Inserting a manual closed entry preserves well-formedness. -/
theorem WF_InsertManualTL {s : Store} {taskID : Nat} {beginTS endTS : Int}
    {comment : Option String} {s' : Store} {newId : Nat} (hwf : WF s)
    (h : InsertManualTL s taskID beginTS endTS comment = .ok (s', newId)) :
    WF s' := by
  obtain ⟨hT, hA, hO, hI⟩ := hwf
  unfold InsertManualTL at h
  simp only [Except.ok.injEq, Prod.mk.injEq] at h
  obtain ⟨hs, _⟩ := h
  subst hs
  refine ⟨?_, ?_, ?_, ?_⟩
  · apply TotalsOK_addSecs hT
    intro x
    rw [closedSecs_append, contrib_closed (by simp)]
    by_cases hx : x = taskID
    · simp [hx]
    · simp [hx, Ne.symm hx]
  · rw [activeCount_append]
    simp only [activeMeasure, Bool.false_eq_true, if_neg, ite_false, add_zero]
    exact hA
  · exact OpenIffActive_append hO (by simp)
  · exact IdsOK_append hI rfl

/-- Finishing the active entry preserves well-formedness. -/
theorem WF_FinishActiveTL {s : Store} {tlID taskID : Nat}
    {beginTS endTS numSeconds : Int} {comment : Option String} {s' : Store}
    (hwf : WF s)
    (h : FinishActiveTL s tlID taskID beginTS endTS numSeconds comment = .ok s') :
    WF s' := by
  obtain ⟨hT, hA, hO, hI⟩ := hwf
  unfold FinishActiveTL at h
  cases hfind : findLog s.logs tlID with
  | none => rw [hfind] at h; cases h
  | some e =>
    rw [hfind] at h
    dsimp only at h
    by_cases hcond : e.activeFlag = true ∧ e.taskId = taskID
    · rw [if_pos hcond] at h
      simp only [Except.ok.injEq] at h
      subst h
      obtain ⟨hflag, htid⟩ := hcond
      have hmem := (findLog_mem hfind).1
      have hopen : e.endTs = none := (hO e hmem).mp hflag
      refine ⟨?_, ?_, ?_, ?_⟩
      · apply TotalsOK_addSecs hT
        intro x
        rw [closedSecs_updateById _ hI.2 hfind, contrib_open hopen,
          contrib_closed (by simp)]
        by_cases hx : x = taskID
        · simp [hx, htid]
        · simp [htid, hx, Ne.symm hx]
      · rw [activeCount_updateById _ hI.2 hfind]
        simp only [activeMeasure, hflag, if_pos, ite_true, Bool.false_eq_true,
          if_neg, ite_false]
        omega
      · exact OpenIffActive_updateById hI.2 hfind hO (by simp)
      · exact IdsOK_updateById (fun x => rfl) hI
    · rw [if_neg hcond] at h
      cases h

/-- Editing a closed entry preserves well-formedness. -/
theorem WF_EditSavedTL {s : Store} {tlID : Nat} {newBeginTS newEndTS : Int}
    {newComment : Option String} {s' : Store} (hwf : WF s)
    (h : EditSavedTL s tlID newBeginTS newEndTS newComment = .ok s') : WF s' := by
  obtain ⟨hT, hA, hO, hI⟩ := hwf
  unfold EditSavedTL at h
  cases hfind : findLog s.logs tlID with
  | none => rw [hfind] at h; cases h
  | some e =>
    rw [hfind] at h
    dsimp only at h
    by_cases hcond : e.endTs.isSome = true
    · rw [if_pos hcond] at h
      simp only [Except.ok.injEq] at h
      subst h
      have hmem := (findLog_mem hfind).1
      have hflag : e.activeFlag = false := by
        cases hfl : e.activeFlag
        · rfl
        · have := (hO e hmem).mp hfl
          rw [this] at hcond
          cases hcond
      refine ⟨?_, ?_, ?_, ?_⟩
      · apply TotalsOK_addSecs hT
        intro x
        rw [closedSecs_updateById _ hI.2 hfind, contrib_closed hcond,
          contrib_closed (by simp)]
        dsimp only
        split_ifs <;> omega
      · rw [activeCount_updateById _ hI.2 hfind]
        simp only [activeMeasure, hflag]
        simp
        exact hA
      · apply OpenIffActive_updateById hI.2 hfind hO
        simp [hflag]
      · exact IdsOK_updateById (fun x => rfl) hI
    · rw [if_neg hcond] at h
      cases h

/-- Deleting a closed entry preserves well-formedness. -/
theorem WF_DeleteTL {s : Store} {tlID : Nat} {s' : Store} (hwf : WF s)
    (h : DeleteTL s tlID = .ok s') : WF s' := by
  obtain ⟨hT, hA, hO, hI⟩ := hwf
  unfold DeleteTL at h
  cases hfind : findLog s.logs tlID with
  | none => rw [hfind] at h; cases h
  | some e =>
    rw [hfind] at h
    dsimp only at h
    by_cases hcond : e.endTs.isSome = true
    · rw [if_pos hcond] at h
      simp only [Except.ok.injEq] at h
      subst h
      have hmem := (findLog_mem hfind).1
      have hflag : e.activeFlag = false := by
        cases hfl : e.activeFlag
        · rfl
        · have := (hO e hmem).mp hfl
          rw [this] at hcond
          cases hcond
      refine ⟨?_, ?_, ?_, ?_⟩
      · apply TotalsOK_addSecs hT
        intro x
        rw [closedSecs_deleteById hI.2 hfind, contrib_closed hcond]
        split_ifs <;> omega
      · rw [activeCount_deleteById hI.2 hfind]
        simp [activeMeasure, hflag]
        exact hA
      · exact OpenIffActive_deleteById hO
      · exact IdsOK_deleteById hI
    · rw [if_neg hcond] at h
      cases h

/-- Moving a closed entry between tasks, with the parameters its caller
supplies (the entry id, its current owner and its stored seconds),
preserves well-formedness. -/
theorem WF_MoveTaskLog {s : Store} {tlID newTaskID : Nat} {e : TaskLogEntry}
    {s' : Store} (hwf : WF s) (hfind : findLog s.logs tlID = some e)
    (hclosed : e.endTs.isSome = true)
    (h : MoveTaskLog s tlID e.taskId newTaskID e.secsSpent = .ok s') : WF s' := by
  obtain ⟨hT, hA, hO, hI⟩ := hwf
  unfold MoveTaskLog at h
  rw [hfind] at h
  dsimp only at h
  simp only [Except.ok.injEq] at h
  subst h
  have hmem := (findLog_mem hfind).1
  refine ⟨?_, ?_, ?_, ?_⟩
  · apply TotalsOK_addSecs_two hT
    intro x
    rw [closedSecs_updateById _ hI.2 hfind, contrib_closed hclosed,
      contrib_closed (by simpa using hclosed)]
    dsimp only
    split_ifs <;> omega
  · rw [activeCount_updateById _ hI.2 hfind]
    simp only [activeMeasure]
    simp
    exact hA
  · apply OpenIffActive_updateById hI.2 hfind hO
    simpa using hO e hmem
  · exact IdsOK_updateById (fun x => rfl) hI

/-- Quick-switching the active entry preserves well-formedness. -/
theorem WF_QuickSwitchActiveTL {s : Store} {newTaskID : Nat} {switchTS : Int}
    {s' : Store} {newId : Nat} (hwf : WF s)
    (h : QuickSwitchActiveTL s newTaskID switchTS = .ok (s', newId)) : WF s' := by
  obtain ⟨hT, hA, hO, hI⟩ := hwf
  unfold QuickSwitchActiveTL at h
  cases hact : s.logs.find? (fun e => e.activeFlag) with
  | none => rw [hact] at h; cases h
  | some e =>
    rw [hact] at h
    dsimp only at h
    simp only [Except.ok.injEq, Prod.mk.injEq] at h
    obtain ⟨hs, _⟩ := h
    subst hs
    have hmem : e ∈ s.logs := List.mem_of_find?_eq_some hact
    have hflag : e.activeFlag = true := by simpa using List.find?_some hact
    have hopen : e.endTs = none := (hO e hmem).mp hflag
    have hfind : findLog s.logs e.id = some e := findLog_of_mem hI.2 hmem
    refine ⟨?_, ?_, ?_, ?_⟩
    · apply TotalsOK_addSecs hT
      intro x
      rw [closedSecs_append, contrib_open rfl, add_zero,
        closedSecs_updateById _ hI.2 hfind, contrib_open hopen,
        contrib_closed (by simp)]
      dsimp only
      split_ifs <;> omega
    · rw [activeCount_append, activeCount_updateById _ hI.2 hfind]
      simp only [activeMeasure, hflag]
      simp
      exact hA
    · apply OpenIffActive_append
      · exact OpenIffActive_updateById hI.2 hfind hO (by simp)
      · simp
    · exact IdsOK_append (IdsOK_updateById (fun x => rfl) hI) rfl

/-- Every application-issued mutation preserves well-formedness; a
failing mutation rolls back and keeps the store as it was. -/
theorem WF_runOp {s : Store} (op : Op) (hwf : WF s) : WF (runOp s op) := by
  cases op with
  | start taskID beginTS =>
    unfold runOp
    dsimp only
    cases h : InsertNewTL s taskID beginTS with
    | ok p =>
      cases p with
      | mk s' nid => exact WF_InsertNewTL hwf h
    | error _ => exact hwf
  | finishTracking tlID taskID beginTS endTS comment =>
    unfold runOp
    dsimp only
    cases h : FinishActiveTL s tlID taskID beginTS endTS (finishSecs beginTS endTS) comment with
    | ok s' => exact WF_FinishActiveTL hwf h
    | error _ => exact hwf
  | quickSwitch newTaskID switchTS =>
    unfold runOp
    dsimp only
    cases h : QuickSwitchActiveTL s newTaskID switchTS with
    | ok p =>
      cases p with
      | mk s' nid => exact WF_QuickSwitchActiveTL hwf h
    | error _ => exact hwf
  | insertManual taskID beginTS endTS comment =>
    unfold runOp
    dsimp only
    cases h : InsertManualTL s taskID beginTS endTS comment with
    | ok p =>
      cases p with
      | mk s' nid => exact WF_InsertManualTL hwf h
    | error _ => exact hwf
  | editClosed tlID newBeginTS newEndTS newComment =>
    unfold runOp
    dsimp only
    cases h : EditSavedTL s tlID newBeginTS newEndTS newComment with
    | ok s' => exact WF_EditSavedTL hwf h
    | error _ => exact hwf
  | deleteClosed tlID =>
    unfold runOp
    dsimp only
    cases h : DeleteTL s tlID with
    | ok s' => exact WF_DeleteTL hwf h
    | error _ => exact hwf
  | move tlID newTaskID =>
    unfold runOp
    dsimp only
    cases hfind : findLog s.logs tlID with
    | none => exact hwf
    | some e =>
      dsimp only
      by_cases hcl : e.endTs.isSome = true
      · rw [if_pos hcl]
        cases hmv : MoveTaskLog s tlID e.taskId newTaskID e.secsSpent with
        | ok s' => exact WF_MoveTaskLog hwf hfind hcl hmv
        | error _ => exact hwf
      · rw [if_neg hcl]
        exact hwf

/-- Every sequence of application-issued mutations preserves
well-formedness. -/
theorem WF_applyOps (ops : List Op) {s : Store} (hwf : WF s) :
    WF (applyOps ops s) := by
  induction ops generalizing s with
  | nil => exact hwf
  | cons op rest ih =>
    simp only [applyOps, List.foldl] at ih ⊢
    exact ih (WF_runOp op hwf)

/-- Pointwise adjustments with equal deltas agree. -/
theorem mapAdd_congr {dl1 dl2 : Nat → Int} (h : ∀ x, dl1 x = dl2 x)
    (tasks : List Task) : mapAdd dl1 tasks = mapAdd dl2 tasks := by
  unfold mapAdd
  apply List.map_congr_left
  intro t _
  rw [h t.id]

/-- The zero pointwise adjustment changes nothing. -/
theorem mapAdd_zero (tasks : List Task) : mapAdd (fun _ => 0) tasks = tasks := by
  unfold mapAdd
  simp

/-- Subtracting and adding the same amount on the same task id is the
identity on the task table. -/
theorem addSecs_cancel (tasks : List Task) (tid : Nat) (d : Int) :
    addSecs (addSecs tasks tid (-d)) tid d = tasks := by
  rw [addSecs_eq_mapAdd, addSecs_eq_mapAdd, mapAdd_mapAdd]
  have h : mapAdd (fun x => (if x = tid then -d else 0) + (if x = tid then d else 0))
      tasks = mapAdd (fun _ => (0 : Int)) tasks := by
    apply mapAdd_congr
    intro x
    by_cases hx : x = tid
    · simp [hx]
    · simp [hx]
  rw [h, mapAdd_zero]

/-- Well-formedness of a concrete store is checkable by evaluation. -/
instance decidableWF (s : Store) : Decidable (WF s) := by
  unfold WF TotalsOK OpenIffActive IdsOK
  infer_instance

/-- Concrete seed store used by witnesses: two tasks with no entries. -/
def witnessStore : Store :=
  { tasks := [{ id := 1, summary := "a", secsSpent := 0, active := true },
              { id := 2, summary := "b", secsSpent := 0, active := true }],
    logs := [], nextLogId := 0 }

/-- Concrete mutation sequence used by the totals witness: a manual
insert, a start, a finish, an edit, a move and a delete. -/
def witnessOps : List Op :=
  [ .insertManual 1 100 200 none,
    .start 2 300,
    .finishTracking 1 2 300 450 (some "c"),
    .editClosed 0 100 250 none,
    .move 0 2,
    .deleteClosed 0 ]

/-- C1: after every sequence of completed-entry mutations (insert
manual, finish tracking, edit closed, delete closed, move between
tasks; starts and quick switches are allowed in the sequence too), every
task's stored total-seconds-spent equals the sum of secs_spent over the
closed log entries it currently owns, so each mutation adjusted the
owning task total by exactly the delta it caused. -/
theorem c1_totals_invariant (ops : List Op) (s : Store) (hwf : WF s) :
    ∀ t ∈ (applyOps ops s).tasks,
      t.secsSpent = closedSecs (applyOps ops s).logs t.id :=
  (WF_applyOps ops hwf).1

theorem c1_totals_invariant_witness :
    WF witnessStore ∧
      ∀ t ∈ (applyOps witnessOps witnessStore).tasks,
        t.secsSpent = closedSecs (applyOps witnessOps witnessStore).logs t.id :=
  ⟨by decide, c1_totals_invariant witnessOps witnessStore (by decide)⟩

/-- C2: over every sequence of mutations at most one task_log row is
flagged active (the storage layer guard modelling the trigger), and an
attempt to start tracking while an entry is already open fails with the
typed AlreadyTracking error and leaves the store unchanged. -/
theorem c2_single_active (s : Store) (hwf : WF s) :
    (∀ ops : List Op, activeCount (applyOps ops s).logs ≤ 1) ∧
    (∀ taskID beginTS, s.logs.any (fun e => e.activeFlag) = true →
       InsertNewTL s taskID beginTS = .error .alreadyTracking ∧
       runOp s (.start taskID beginTS) = s) := by
  constructor
  · intro ops
    exact (WF_applyOps ops hwf).2.1
  · intro taskID beginTS hb
    constructor
    · unfold InsertNewTL
      rw [if_pos hb]
    · unfold runOp
      dsimp only
      unfold InsertNewTL
      rw [if_pos hb]

/-- Concrete store with one open entry, used by witnesses. -/
def witnessStoreOpen : Store :=
  { tasks := [{ id := 1, summary := "a", secsSpent := 0, active := true },
              { id := 2, summary := "b", secsSpent := 0, active := true }],
    logs := [{ id := 0, taskId := 1, beginTs := 50, endTs := none,
               secsSpent := 0, comment := some "w", activeFlag := true }],
    nextLogId := 1 }

theorem c2_single_active_witness :
    activeCount (applyOps witnessOps witnessStore).logs ≤ 1 ∧
      InsertNewTL witnessStoreOpen 2 60 = .error .alreadyTracking ∧
      runOp witnessStoreOpen (.start 2 60) = witnessStoreOpen :=
  ⟨(c2_single_active witnessStore (by decide)).1 witnessOps,
   (c2_single_active witnessStoreOpen (by decide)).2 2 60 (by decide)⟩

/-- C3: quick switch with an open entry present closes that entry at the
switch timestamp inside the one transaction, crediting it with the
finish-tracking accounting while keeping its (possibly edited) begin
timestamp and its comment, credits the seconds to the owning task total,
and inserts a new open entry on the new task beginning at the switch
timestamp with no comment; with no open entry it fails with the typed
NoTaskActive error. -/
theorem c3_quick_switch (s : Store) (newTaskID : Nat) (switchTS : Int)
    (hwf : WF s) :
    (s.logs.find? (fun e => e.activeFlag) = none →
       QuickSwitchActiveTL s newTaskID switchTS = .error .noTaskActive) ∧
    (∀ e, s.logs.find? (fun e => e.activeFlag) = some e →
       ∃ s', QuickSwitchActiveTL s newTaskID switchTS = .ok (s', s.nextLogId) ∧
         ({ e with endTs := some switchTS,
                   secsSpent := finishSecs e.beginTs switchTS,
                   activeFlag := false } : TaskLogEntry) ∈ s'.logs ∧
         ({ id := s.nextLogId, taskId := newTaskID, beginTs := switchTS,
            endTs := none, secsSpent := 0, comment := none,
            activeFlag := true } : TaskLogEntry) ∈ s'.logs ∧
         s'.tasks = addSecs s.tasks e.taskId (finishSecs e.beginTs switchTS) ∧
         s'.nextLogId = s.nextLogId + 1) := by
  constructor
  · intro h
    unfold QuickSwitchActiveTL
    rw [h]
  · intro e hact
    unfold QuickSwitchActiveTL
    rw [hact]
    dsimp only
    refine ⟨_, rfl, ?_, ?_, rfl, rfl⟩
    · apply List.mem_append_left
      have hfind : findLog s.logs e.id = some e :=
        findLog_of_mem hwf.2.2.2.2 (List.mem_of_find?_eq_some hact)
      exact mem_updateById _ hfind
    · exact List.mem_append_right _ (by simp)

theorem c3_quick_switch_witness :
    QuickSwitchActiveTL witnessStoreOpen 2 170 = .error .noTaskActive ∨
      ∃ s', QuickSwitchActiveTL witnessStoreOpen 2 170 = .ok (s', 1) ∧
        ({ id := 0, taskId := 1, beginTs := 50, endTs := some 170,
           secsSpent := 120, comment := some "w",
           activeFlag := false } : TaskLogEntry) ∈ s'.logs ∧
        ({ id := 1, taskId := 2, beginTs := 170, endTs := none,
           secsSpent := 0, comment := none,
           activeFlag := true } : TaskLogEntry) ∈ s'.logs := by
  have h := (c3_quick_switch witnessStoreOpen 2 170 (by decide)).2
    { id := 0, taskId := 1, beginTs := 50, endTs := none,
      secsSpent := 0, comment := some "w", activeFlag := true } (by decide)
  obtain ⟨s', h1, h2, h3, _, _⟩ := h
  exact Or.inr ⟨s', h1, h2, h3⟩

/-- C4: moving an entry to its current owning task leaves the task table
(and hence both totals) unchanged; moving it to a different task hands
the entry to the new owner, decrements the old owner total and
increments the new owner total by secsToMove; a missing entry id fails
with the typed not-found error. -/
theorem c4_move_entry (s : Store) (tlID oldTaskID newTaskID : Nat)
    (secsToMove : Int) :
    (findLog s.logs tlID = none →
       MoveTaskLog s tlID oldTaskID newTaskID secsToMove
         = .error .taskLogNotFound) ∧
    (∀ e, findLog s.logs tlID = some e →
       ∃ s', MoveTaskLog s tlID oldTaskID newTaskID secsToMove = .ok s' ∧
         ({ e with taskId := newTaskID } : TaskLogEntry) ∈ s'.logs ∧
         (oldTaskID = newTaskID → s'.tasks = s.tasks) ∧
         (oldTaskID ≠ newTaskID → ∀ t ∈ s.tasks,
            (t.id = oldTaskID →
              ({ t with secsSpent := t.secsSpent - secsToMove } : Task)
                ∈ s'.tasks) ∧
            (t.id = newTaskID →
              ({ t with secsSpent := t.secsSpent + secsToMove } : Task)
                ∈ s'.tasks))) := by
  constructor
  · intro h
    unfold MoveTaskLog
    rw [h]
  · intro e hfind
    unfold MoveTaskLog
    rw [hfind]
    dsimp only
    refine ⟨_, rfl, ?_, ?_, ?_⟩
    · exact mem_updateById _ hfind
    · intro hsame
      subst hsame
      exact addSecs_cancel s.tasks oldTaskID secsToMove
    · intro hne t ht
      constructor
      · intro hid
        have h1 : ({ t with secsSpent := t.secsSpent + -secsToMove } : Task)
            ∈ addSecs s.tasks oldTaskID (-secsToMove) := by
          have hmm := List.mem_map_of_mem
            (fun t : Task => if t.id = oldTaskID then
              { t with secsSpent := t.secsSpent + -secsToMove } else t) ht
          dsimp only at hmm
          rwa [if_pos hid] at hmm
        have h2 := List.mem_map_of_mem
          (fun t : Task => if t.id = newTaskID then
            { t with secsSpent := t.secsSpent + secsToMove } else t) h1
        dsimp only at h2
        rw [if_neg (by simpa [hid] using hne)] at h2
        rw [sub_eq_add_neg]
        exact h2
      · intro hid
        have h1 : t ∈ addSecs s.tasks oldTaskID (-secsToMove) := by
          have hmm := List.mem_map_of_mem
            (fun t : Task => if t.id = oldTaskID then
              { t with secsSpent := t.secsSpent + -secsToMove } else t) ht
          dsimp only at hmm
          rwa [if_neg (by simp [hid]; omega)] at hmm
        have h2 := List.mem_map_of_mem
          (fun t : Task => if t.id = newTaskID then
            { t with secsSpent := t.secsSpent + secsToMove } else t) h1
        dsimp only at h2
        rwa [if_pos hid] at h2

/-- Concrete store with two tasks and one closed entry, used by the move
and archive witnesses. -/
def witnessStoreClosed : Store :=
  { tasks := [{ id := 1, summary := "a", secsSpent := 3600, active := true },
              { id := 2, summary := "b", secsSpent := 0, active := true }],
    logs := [{ id := 0, taskId := 1, beginTs := 100, endTs := some 3700,
               secsSpent := 3600, comment := none, activeFlag := false }],
    nextLogId := 1 }

theorem c4_move_entry_witness :
    MoveTaskLog witnessStoreClosed 9 1 2 3600 = .error .taskLogNotFound ∧
      ∃ s', MoveTaskLog witnessStoreClosed 0 1 2 3600 = .ok s' ∧
        ({ id := 0, taskId := 2, beginTs := 100, endTs := some 3700,
           secsSpent := 3600, comment := none,
           activeFlag := false } : TaskLogEntry) ∈ s'.logs ∧
        ({ id := 1, summary := "a", secsSpent := 0, active := true } : Task)
          ∈ s'.tasks ∧
        ({ id := 2, summary := "b", secsSpent := 3600, active := true } : Task)
          ∈ s'.tasks := by
  constructor
  · exact (c4_move_entry witnessStoreClosed 9 1 2 3600).1 (by decide)
  · have h := (c4_move_entry witnessStoreClosed 0 1 2 3600).2
      { id := 0, taskId := 1, beginTs := 100, endTs := some 3700,
        secsSpent := 3600, comment := none, activeFlag := false } (by decide)
    obtain ⟨s', h1, h2, _, h4⟩ := h
    refine ⟨s', h1, h2, ?_, ?_⟩
    · have := (h4 (by decide)
        { id := 1, summary := "a", secsSpent := 3600, active := true }
        (by decide)).1 rfl
      simpa using this
    · have := (h4 (by decide)
        { id := 2, summary := "b", secsSpent := 0, active := true }
        (by decide)).2 rfl
      simpa using this

/-- C5: the archive sweep never touches a task owning an open entry
(whatever its begin timestamp), sets inactive exactly the active tasks
with no log entry after the cutoff and no open entry, and returns the
number of tasks archived. -/
theorem c5_archive_stale (s : Store) (cutoff : Int) :
    (∀ t ∈ s.tasks, hasOpenEntry s.logs t.id = true →
       t ∈ (ArchiveStaleTasks s cutoff).1.tasks) ∧
    (∀ t ∈ s.tasks,
       (staleTask s.logs cutoff t = true →
          ({ t with active := false } : Task)
            ∈ (ArchiveStaleTasks s cutoff).1.tasks) ∧
       (staleTask s.logs cutoff t = false →
          t ∈ (ArchiveStaleTasks s cutoff).1.tasks)) ∧
    (ArchiveStaleTasks s cutoff).2
      = (s.tasks.filter (staleTask s.logs cutoff)).length := by
  refine ⟨?_, ?_, rfl⟩
  · intro t ht hopen
    have hstale : staleTask s.logs cutoff t = false := by
      unfold staleTask
      rw [hopen]
      simp
    have hmm := List.mem_map_of_mem
      (fun t : Task => if staleTask s.logs cutoff t then
        { t with active := false } else t) ht
    dsimp only at hmm
    rwa [if_neg (by simp [hstale])] at hmm
  · intro t ht
    constructor
    · intro hstale
      have hmm := List.mem_map_of_mem
        (fun t : Task => if staleTask s.logs cutoff t then
          { t with active := false } else t) ht
      dsimp only at hmm
      rwa [if_pos hstale] at hmm
    · intro hstale
      have hmm := List.mem_map_of_mem
        (fun t : Task => if staleTask s.logs cutoff t then
          { t with active := false } else t) ht
      dsimp only at hmm
      rwa [if_neg (by simp [hstale])] at hmm

/-- Concrete store whose only task owns a very old open entry. -/
def witnessStoreOldOpen : Store :=
  { tasks := [{ id := 1, summary := "a", secsSpent := 0, active := true }],
    logs := [{ id := 0, taskId := 1, beginTs := -1000000, endTs := none,
               secsSpent := 0, comment := none, activeFlag := true }],
    nextLogId := 1 }

theorem c5_archive_stale_witness :
    ({ id := 1, summary := "a", secsSpent := 0, active := true } : Task)
      ∈ (ArchiveStaleTasks witnessStoreOldOpen 0).1.tasks ∧
      (ArchiveStaleTasks witnessStoreClosed 4000).2 = 2 := by
  constructor
  · exact (c5_archive_stale witnessStoreOldOpen 0).1
      { id := 1, summary := "a", secsSpent := 0, active := true }
      (by decide) (by decide)
  · rw [(c5_archive_stale witnessStoreClosed 4000).2.2]
    decide

/-!
Part 2: the interactive UI reducers from internal/ui (handle code, which
is present under src) and the CLI active-task rendering.  Text inputs
that hold timestamps are embedded as their parse outcome (the reducers
only ever consume the result of parsing them in the fixed format); the
comment textarea is kept as a plain string because the reducers trim it
themselves.  All timestamps are whole seconds, so the Truncate-to-second
step of the source is the identity here.
-/

/-- Is this character trimmed by strings.TrimSpace, which trims every
character with the Unicode White_Space property (unicode.IsSpace): the
ASCII white space characters, next line, no-break space, ogham space
mark, the en-quad through hair-space range, line and paragraph
separator, narrow no-break space, medium mathematical space and
ideographic space. -/
def isSpaceChar (c : Char) : Bool :=
  c == ' ' || c == '\t' || c == '\n' || c == '\r' ||
    c == Char.ofNat 11 || c == Char.ofNat 12 ||
    c == Char.ofNat 133 || c == Char.ofNat 160 ||
    c == Char.ofNat 5760 ||
    (8192 ≤ c.toNat && c.toNat ≤ 8202) ||
    c == Char.ofNat 8232 || c == Char.ofNat 8233 ||
    c == Char.ofNat 8239 || c == Char.ofNat 8287 ||
    c == Char.ofNat 12288

/-- Drops the leading white space characters. -/
def trimLeftL : List Char → List Char
  | [] => []
  | c :: cs => if isSpaceChar c then trimLeftL cs else c :: cs

/-- Drops the trailing white space characters. -/
def trimRightL (l : List Char) : List Char :=
  (trimLeftL l.reverse).reverse

/-- The strings.TrimSpace step used by commentPtrFromInput. -/
def goTrimSpace (s : String) : String :=
  ⟨trimRightL (trimLeftL s.data)⟩

/-- commentPtrFromInput from internal/ui: a pointer to the trimmed
textarea value, or nil when the trimmed value is empty. -/
def commentPtrFromInput (input : String) : Option String :=
  let v := goTrimSpace input
  if v = "" then none else some v

/-- Does the second list start with the first. -/
def listHasPrefix : List Char → List Char → Bool
  | [], _ => true
  | _ :: _, [] => false
  | p :: ps, c :: cs => p == c && listHasPrefix ps cs

/-- Replaces the first occurrence of pat (strings.Replace with count 1);
with an empty pattern the replacement lands at the start. -/
def replaceFirstL (pat rep : List Char) : List Char → List Char
  | [] => if pat.isEmpty then rep else []
  | c :: cs =>
    if listHasPrefix pat (c :: cs) then rep ++ (c :: cs).drop pat.length
    else c :: replaceFirstL pat rep cs

/-- String version of the single replacement. -/
def replaceFirst (s pat rep : String) : String :=
  ⟨replaceFirstL pat.data rep.data s.data⟩

/-- Modelled from the spec: types.HumanizeDuration (implementation not
under src; spec section 4.3 together with the unit-test table in
internal/types/types_test.go pin the format): XhYm with zero components
omitted, Xm under an hour, Xs under a minute. -/
def HumanizeDuration (secsSpent : Nat) : String :=
  if secsSpent < 60 then toString secsSpent ++ "s"
  else
    let mins := secsSpent / 60
    if mins < 60 then toString mins ++ "m"
    else if mins % 60 == 0 then toString (mins / 60) ++ "h"
    else toString (mins / 60) ++ "h " ++ toString (mins % 60) ++ "m"

/-- The views of the interactive state machine (internal/ui model). -/
inductive View where
  | taskListView
  | taskLogView
  | taskLogDetailsView
  | inactiveTaskListView
  | taskInputView
  | editActiveTLView
  | finishActiveTLView
  | manualTasklogEntryView
  | editSavedTLView
  | moveTaskLogView
  | helpView
  | insufficientDimensionsView
deriving Repr, DecidableEq

/-- Kind of a transient status message. -/
inductive MsgKind where
  | info
  | err
deriving Repr, DecidableEq

/-- A transient status message shown in the status bar. -/
structure UserMessage where
  kind : MsgKind
  value : String
deriving Repr, DecidableEq

/-- errMsg from the source: an error-kind message. -/
def errMsg (v : String) : UserMessage := { kind := .err, value := v }

/-- errMsgQuick from the source: an error-kind message with a shorter
display duration (the frame count is presentation state, not modelled). -/
def errMsgQuick (v : String) : UserMessage := { kind := .err, value := v }

/-- infoMsg from the source: an informational message. -/
def infoMsg (v : String) : UserMessage := { kind := .info, value := v }

/-- Whether a task-log form submission saves a new entry or updates a
saved one. -/
inductive SaveType where
  | tasklogInsert
  | tasklogUpdate
deriving Repr, DecidableEq

/-- The task fields the embedded reducers read (types.Task on the UI
side uses machine integers for ids). -/
structure UITask where
  id : Int
  summary : String
deriving Repr, DecidableEq

/-- The task-log-entry fields the embedded reducers read. -/
structure UITaskLogEntry where
  id : Int
  taskId : Int
deriving Repr, DecidableEq

/-- The persistence commands a reducer can issue (the cmds.go factories;
executing them is the asynchronous part and is not modelled, the claims
are about which command is issued). -/
inductive TeaCmd where
  | updateActiveTL (beginTS : Int) (comment : Option String)
  | toggleTracking (taskID : Int) (beginTS endTS : Int) (comment : Option String)
  | insertManualTL (taskID : Int) (beginTS endTS : Int) (comment : Option String)
  | editSavedTL (tlID taskID : Int) (beginTS endTS : Int) (comment : Option String)
  | updateTaskActiveStatus (taskID : Int) (isActive : Bool)
deriving Repr, DecidableEq

/-- The UI model fields the embedded reducers touch.  tLBeginInput and
tLEndInput are the parse outcomes of the two timestamp text inputs;
selActiveTask and selTaskLogEntry are the outcomes of the list-selection
helpers; timeNow is what the injected time provider returns. -/
structure UIModel where
  tLBeginInput : Option Int
  tLEndInput : Option Int
  tLCommentInput : String
  activeView : View
  message : Option UserMessage
  timeNow : Int
  trackingActive : Bool
  activeTaskID : Int
  activeTLBeginTS : Int
  activeTLEndTS : Int
  activeTLComment : Option String
  tasklogSaveType : SaveType
  selActiveTask : Option UITask
  selTaskLogEntry : Option UITaskLogEntry
  activeTasksListFiltered : Bool
deriving Repr, DecidableEq

/-- Stand-in for the dynamic text of a timestamp parse error (the source
shows err.Error(); the exact text is not load-bearing). -/
def parseErrorText : String := "could not parse timestamp"

/-- Message constants from the source. -/
def genericErrorMsg : String := "Something went wrong"

/-- Message shown when a list filter must be removed first. -/
def removeFilterMsg : String := "Remove filter first"

/-- Message shown when the begin timestamp lies in the future. -/
def beginTsCannotBeInTheFutureMsg : String :=
  "Begin timestamp cannot be in the future"

/-- Message shown when no task could be selected (the apostrophe of the
source text is written as an escape). -/
def msgCouldntSelectATask : String := "Couldn\x27t select a task"

/-- Message shown when deactivating the tracked task is refused. -/
def cannotDeactivateTrackedMsg : String :=
  "Cannot deactivate a task being tracked; stop tracking and try again."

/-- Message shown when the finish-tracking duration is too short. -/
def tlDurationTooShortMsg : String :=
  "Task log duration is too short to save; press <ctrl+x> if you want to discard it"

/-- Modelled from the spec: types.ParseTaskLogTimes (implementation not
under src).  It parses the two fixed-format timestamp strings of the
begin and end inputs; its call sites in src pass only the two input
strings, so its outcome depends only on them and never on the current
time.  Only parse failures are modelled; no further validation is
visible from src. -/
def ParseTaskLogTimes (beginInput endInput : Option Int) :
    Except String (Int × Int) :=
  match beginInput, endInput with
  | some b, some e => .ok (b, e)
  | _, _ => .error parseErrorText

/-- The single modelled task-log duration error. -/
inductive TLDurationError where
  | durationNotLongEnough
deriving Repr, DecidableEq

/-- Modelled from the spec: the minimum finish-tracking duration.  The
spec (sections 4.2 and 9) pins only that a non-zero but very short
duration is refused and deems the exact threshold a configurable detail;
the tests pin one second as too short and two hours as fine. -/
def minTLDurationSecs : Int := 60

/-- Modelled from the spec: types.IsTaskLogDurationValid (implementation
not under src): flags a duration below the minimum threshold. -/
def IsTaskLogDurationValid (beginTS endTS : Int) : Option TLDurationError :=
  if endTS - beginTS < minTLDurationSecs then some .durationNotLongEnough
  else none

/-- getCmdToUpdateActiveTL from the source: submission of the
edit-open-entry form.  Rejects an unparseable begin input, then a begin
moment after the time provider now; otherwise issues the
update-active-entry command and returns to the task list. -/
def getCmdToUpdateActiveTL (m : UIModel) : UIModel × Option TeaCmd :=
  match m.tLBeginInput with
  | none => ({ m with message := some (errMsgQuick parseErrorText) }, none)
  | some beginTS =>
    if m.timeNow < beginTS then
      ({ m with message := some (errMsgQuick beginTsCannotBeInTheFutureMsg) }, none)
    else
      ({ m with activeView := .taskListView },
       some (.updateActiveTL beginTS (commentPtrFromInput m.tLCommentInput)))

/-- getCmdToFinishTrackingActiveTL from the source: submission of the
finish-tracking form with edited begin and end timestamps. -/
def getCmdToFinishTrackingActiveTL (m : UIModel) : UIModel × Option TeaCmd :=
  match ParseTaskLogTimes m.tLBeginInput m.tLEndInput with
  | .error msg => ({ m with message := some (errMsg msg) }, none)
  | .ok (beginTS, endTS) =>
    ({ m with activeTLBeginTS := beginTS, activeTLEndTS := endTS,
              activeView := .taskListView },
     some (.toggleTracking m.activeTaskID beginTS endTS
       (commentPtrFromInput m.tLCommentInput)))

/-- getCmdToFinishActiveTL from the source: the direct finish action.
Truncate-to-second is the identity in the whole-second embedding.  On a
too-short duration it sets the informational message and issues no
command, leaving the end timestamp untouched. -/
def getCmdToFinishActiveTL (m : UIModel) : UIModel × Option TeaCmd :=
  let now := m.timeNow
  match IsTaskLogDurationValid m.activeTLBeginTS now with
  | some .durationNotLongEnough =>
    ({ m with message := some (infoMsg tlDurationTooShortMsg) }, none)
  | none =>
    ({ m with activeTLEndTS := now },
     some (.toggleTracking m.activeTaskID m.activeTLBeginTS now m.activeTLComment))

/-- getCmdToCreateOrEditTL from the source: submission of the
manual-entry and edit-closed-entry forms. -/
def getCmdToCreateOrEditTL (m : UIModel) : UIModel × Option TeaCmd :=
  match ParseTaskLogTimes m.tLBeginInput m.tLEndInput with
  | .error msg => ({ m with message := some (errMsg msg) }, none)
  | .ok (beginTS, endTS) =>
    let comment := commentPtrFromInput m.tLCommentInput
    let m1 := { m with tLCommentInput := "", activeTLComment := none }
    match m.tasklogSaveType with
    | .tasklogInsert =>
      let m2 := { m1 with activeView := .taskListView }
      match m.selActiveTask with
      | none => ({ m2 with message := some (errMsg genericErrorMsg) }, none)
      | some task =>
        (m2, some (.insertManualTL task.id beginTS endTS comment))
    | .tasklogUpdate =>
      let m2 := { m1 with activeView := .taskLogView }
      match m.selTaskLogEntry with
      | none => ({ m2 with message := some (errMsg genericErrorMsg) }, none)
      | some tl =>
        (m2, some (.editSavedTL tl.id tl.taskId beginTS endTS comment))

/-- getCmdToDeactivateTask from the source: refuses while a filter is
applied, then refuses while tracking is active, and only then issues the
deactivation command for the selected task. -/
def getCmdToDeactivateTask (m : UIModel) : UIModel × Option TeaCmd :=
  if m.activeTasksListFiltered then
    ({ m with message := some (errMsg removeFilterMsg) }, none)
  else if m.trackingActive then
    ({ m with message := some (errMsg cannotDeactivateTrackedMsg) }, none)
  else
    match m.selActiveTask with
    | none => ({ m with message := some (errMsg msgCouldntSelectATask) }, none)
    | some task => (m, some (.updateTaskActiveStatus task.id false))

/-- The task placeholder of the active subcommand template (braces
written as escapes). -/
def ActiveTaskPlaceholder : String := "\x7b\x7btask\x7d\x7d"

/-- The time placeholder of the active subcommand template. -/
def ActiveTaskTimePlaceholder : String := "\x7b\x7btime\x7d\x7d"

/-- Threshold in seconds under which the active display shows <1m. -/
def activeSecsThreshold : Int := 60

/-- The sub-minute display string. -/
def activeSecsThresholdStr : String := "<1m"

/-- The derived active-task details of spec section 3: owning task id or
the sentinel -1, the task summary, and the open entry begin and comment. -/
structure ActiveTaskDetails where
  taskID : Int
  taskSummary : String
  currentLogBeginTS : Int
  currentLogComment : Option String
deriving Repr, DecidableEq

/-- Summary of the task with the given id, or empty when absent. -/
def taskSummaryOf (tasks : List Task) (tid : Nat) : String :=
  match tasks.find? (fun t => t.id = tid) with
  | some t => t.summary
  | none => ""

/-- Modelled from the spec: persistence.FetchActiveTaskDetails (missing
queries.go): derives the details from the single open log entry, or the
sentinel task id -1 when none is open (spec sections 3 and 4.1). -/
def FetchActiveTaskDetails (s : Store) : ActiveTaskDetails :=
  match s.logs.find? (fun e => e.activeFlag) with
  | none =>
    { taskID := -1, taskSummary := "", currentLogBeginTS := 0,
      currentLogComment := none }
  | some e =>
    { taskID := (e.taskId : Int), taskSummary := taskSummaryOf s.tasks e.taskId,
      currentLogBeginTS := e.beginTs, currentLogComment := e.comment }

/-- ShowActiveTask from the source (internal/ui CLI helpers): prints
nothing when no task is active; otherwise substitutes the first task
placeholder by the active task summary and the first time placeholder by
the humanized time since the open entry began, with durations up to the
threshold shown as <1m.  The produced output string is returned. -/
def ShowActiveTask (details : ActiveTaskDetails) (template : String)
    (now : Int) : String :=
  if details.taskID = -1 then ""
  else
    let timeSpent := now - details.currentLogBeginTS
    let timeSpentStr :=
      if timeSpent ≤ activeSecsThreshold then activeSecsThresholdStr
      else HumanizeDuration timeSpent.toNat
    replaceFirst
      (replaceFirst template ActiveTaskPlaceholder details.taskSummary)
      ActiveTaskTimePlaceholder timeSpentStr

/-- trimLeftL erases the list exactly when all of it is white space. -/
theorem trimLeftL_eq_nil {l : List Char} :
    trimLeftL l = [] ↔ l.all isSpaceChar = true := by
  induction l with
  | nil => simp [trimLeftL]
  | cons c cs ih =>
    by_cases hc : isSpaceChar c = true
    · simp [trimLeftL, hc, ih]
    · simp [trimLeftL, hc]

/-- trimLeftL keeps a non-space character when one exists. -/
theorem trimLeftL_all_false {l : List Char} (h : l.all isSpaceChar = false) :
    (trimLeftL l).all isSpaceChar = false := by
  induction l with
  | nil => simp at h
  | cons c cs ih =>
    by_cases hc : isSpaceChar c = true
    · simp only [List.all_cons, hc, Bool.true_and] at h
      simp only [trimLeftL, if_pos hc]
      exact ih h
    · simp only [trimLeftL, if_neg hc, List.all_cons]
      simp [hc]

/-- The head left by trimLeftL is never white space. -/
theorem trimLeftL_head_not_space {l : List Char} {c : Char}
    (h : (trimLeftL l).head? = some c) : isSpaceChar c = false := by
  induction l with
  | nil => simp [trimLeftL] at h
  | cons a t ih =>
    by_cases ha : isSpaceChar a = true
    · simp only [trimLeftL, if_pos ha] at h
      exact ih h
    · simp only [trimLeftL, if_neg ha, List.head?_cons, Option.some.injEq] at h
      subst h
      simpa using ha

/-- trimLeftL returns a suffix of its input. -/
theorem trimLeftL_suffix (l : List Char) : trimLeftL l <:+ l := by
  induction l with
  | nil => simp [trimLeftL]
  | cons a t ih =>
    by_cases ha : isSpaceChar a = true
    · simp only [trimLeftL, if_pos ha]
      exact ih.trans (List.suffix_cons a t)
    · simp only [trimLeftL, if_neg ha]
      exact List.suffix_rfl

/-- A nonempty prefix starts with the same character as the whole. -/
theorem prefix_head_eq {p l : List Char} (h : p <+: l) (hne : p ≠ []) :
    p.head? = l.head? := by
  obtain ⟨t, rfl⟩ := h
  cases p with
  | nil => exact absurd rfl hne
  | cons a q => rfl

/-- trimRightL returns a prefix of its input. -/
theorem prefix_trimRightL (l : List Char) : trimRightL l <+: l := by
  have h := trimLeftL_suffix l.reverse
  have := List.reverse_prefix.mpr h
  simpa [trimRightL] using this

/-- trimRightL erases the list exactly when all of it is white space. -/
theorem trimRightL_eq_nil {l : List Char} :
    trimRightL l = [] ↔ l.all isSpaceChar = true := by
  unfold trimRightL
  rw [List.reverse_eq_nil_iff, trimLeftL_eq_nil, List.all_reverse]

/-- The last character left by trimRightL is never white space. -/
theorem trimRightL_getLast_not_space {l : List Char} {c : Char}
    (h : (trimRightL l).getLast? = some c) : isSpaceChar c = false := by
  unfold trimRightL at h
  rw [List.getLast?_reverse] at h
  exact trimLeftL_head_not_space h

/-- C6: when finishing the active tracking session would produce a
duration below the minimum threshold, no persistence command is issued,
the model end timestamp is left untouched, and the informational message
asking for an explicit discard is shown. -/
theorem c6_too_short_finish (m : UIModel)
    (h : m.timeNow - m.activeTLBeginTS < minTLDurationSecs) :
    (getCmdToFinishActiveTL m).2 = none ∧
    (getCmdToFinishActiveTL m).1.message = some (infoMsg tlDurationTooShortMsg) ∧
    (getCmdToFinishActiveTL m).1.activeTLEndTS = m.activeTLEndTS := by
  unfold getCmdToFinishActiveTL IsTaskLogDurationValid
  dsimp only
  rw [if_pos h]
  exact ⟨rfl, rfl, rfl⟩

/-- Concrete model with a one-second-old tracking session. -/
def witnessModelShort : UIModel :=
  { tLBeginInput := none, tLEndInput := none, tLCommentInput := "",
    activeView := .taskListView, message := none, timeNow := 1000,
    trackingActive := true, activeTaskID := 1, activeTLBeginTS := 999,
    activeTLEndTS := 0, activeTLComment := none,
    tasklogSaveType := .tasklogInsert, selActiveTask := none,
    selTaskLogEntry := none, activeTasksListFiltered := false }

theorem c6_too_short_finish_witness :
    (getCmdToFinishActiveTL witnessModelShort).2 = none ∧
      (getCmdToFinishActiveTL witnessModelShort).1.message
        = some (infoMsg tlDurationTooShortMsg) ∧
      (getCmdToFinishActiveTL witnessModelShort).1.activeTLEndTS = 0 :=
  c6_too_short_finish witnessModelShort (by decide)

/-- C8: while tracking is active, the deactivate-task reducer issues no
command at all (the deactivation never reaches the persistence core) and
sets an error message, the explanatory tracked-task one whenever no list
filter intercepts first. -/
theorem c8_deactivate_tracked (m : UIModel) (h : m.trackingActive = true) :
    (getCmdToDeactivateTask m).2 = none ∧
    (m.activeTasksListFiltered = false →
      (getCmdToDeactivateTask m).1.message
        = some (errMsg cannotDeactivateTrackedMsg)) := by
  unfold getCmdToDeactivateTask
  by_cases hf : m.activeTasksListFiltered = true
  · rw [if_pos hf]
    refine ⟨rfl, ?_⟩
    intro hc
    rw [hf] at hc
    cases hc
  · rw [if_neg hf, if_pos h]
    exact ⟨rfl, fun _ => rfl⟩

/-- Concrete model that is tracking task 1 with task 2 selected. -/
def witnessModelTracking : UIModel :=
  { tLBeginInput := none, tLEndInput := none, tLCommentInput := "",
    activeView := .taskListView, message := none, timeNow := 1000,
    trackingActive := true, activeTaskID := 1, activeTLBeginTS := 0,
    activeTLEndTS := 0, activeTLComment := none,
    tasklogSaveType := .tasklogInsert,
    selActiveTask := some { id := 1, summary := "a" },
    selTaskLogEntry := none, activeTasksListFiltered := false }

theorem c8_deactivate_tracked_witness :
    (getCmdToDeactivateTask witnessModelTracking).2 = none ∧
      (getCmdToDeactivateTask witnessModelTracking).1.message
        = some (errMsg cannotDeactivateTrackedMsg) := by
  have h := c8_deactivate_tracked witnessModelTracking rfl
  exact ⟨h.1, h.2 rfl⟩

/-- Concrete manual-entry form submission whose begin timestamp parses
to a moment after the time provider now. -/
def c7Model : UIModel :=
  { tLBeginInput := some 1000, tLEndInput := some 2000, tLCommentInput := "",
    activeView := .manualTasklogEntryView, message := none, timeNow := 500,
    trackingActive := false, activeTaskID := -1, activeTLBeginTS := 0,
    activeTLEndTS := 0, activeTLComment := none,
    tasklogSaveType := .tasklogInsert,
    selActiveTask := some { id := 7, summary := "x" },
    selTaskLogEntry := none, activeTasksListFiltered := false }

/-- C7 counterexample: a manual-entry form submission with a begin
timestamp that parses to a moment after the time provider now (begin
1000, now 500) is not rejected: the insert command is issued and no
error message is set, so not every form submission rejects a future
begin. -/
theorem c7_counterexample :
    c7Model.tLBeginInput = some 1000 ∧ c7Model.timeNow < 1000 ∧
    (getCmdToCreateOrEditTL c7Model).2
      = some (.insertManualTL 7 1000 2000 none) ∧
    (getCmdToCreateOrEditTL c7Model).1.message = none :=
  ⟨rfl, by decide, rfl, rfl⟩

/-- C7 amended: only the edit-open-entry form checks the begin timestamp
against the time provider: there a begin parsing after now is rejected
with an error message and no persistence command.  The manual-entry,
edit-closed-entry and finish-tracking form submissions are independent
of the time provider now, so they cannot reject a future begin. -/
theorem c7_future_begin_amended :
    (∀ (m : UIModel) (b : Int), m.tLBeginInput = some b → m.timeNow < b →
       (getCmdToUpdateActiveTL m).2 = none ∧
       (getCmdToUpdateActiveTL m).1.message
         = some (errMsgQuick beginTsCannotBeInTheFutureMsg)) ∧
    (∀ (m : UIModel) (now1 now2 : Int),
       (getCmdToCreateOrEditTL { m with timeNow := now1 }).2
         = (getCmdToCreateOrEditTL { m with timeNow := now2 }).2) ∧
    (∀ (m : UIModel) (now1 now2 : Int),
       (getCmdToFinishTrackingActiveTL { m with timeNow := now1 }).2
         = (getCmdToFinishTrackingActiveTL { m with timeNow := now2 }).2) := by
  refine ⟨?_, ?_, ?_⟩
  · intro m b hb hfut
    unfold getCmdToUpdateActiveTL
    rw [hb]
    dsimp only
    rw [if_pos hfut]
    exact ⟨rfl, rfl⟩
  · intro m now1 now2
    unfold getCmdToCreateOrEditTL
    dsimp only
    cases hp : ParseTaskLogTimes m.tLBeginInput m.tLEndInput with
    | error msg => rfl
    | ok p =>
      obtain ⟨b, e⟩ := p
      dsimp only
      cases m.tasklogSaveType with
      | tasklogInsert =>
        dsimp only
        cases m.selActiveTask with
        | none => rfl
        | some task => rfl
      | tasklogUpdate =>
        dsimp only
        cases m.selTaskLogEntry with
        | none => rfl
        | some tl => rfl
  · intro m now1 now2
    unfold getCmdToFinishTrackingActiveTL
    dsimp only
    cases hp : ParseTaskLogTimes m.tLBeginInput m.tLEndInput with
    | error msg => rfl
    | ok p =>
      obtain ⟨b, e⟩ := p
      rfl

/-- Concrete edit-open-entry form submission with a future begin. -/
def c7EditModel : UIModel :=
  { c7Model with activeView := .editActiveTLView, timeNow := 800,
                 tLBeginInput := some 900 }

theorem c7_future_begin_amended_witness :
    (getCmdToUpdateActiveTL c7EditModel).2 = none ∧
      (getCmdToUpdateActiveTL c7EditModel).1.message
        = some (errMsgQuick beginTsCannotBeInTheFutureMsg) ∧
      (getCmdToCreateOrEditTL { c7Model with timeNow := 500 }).2
        = (getCmdToCreateOrEditTL { c7Model with timeNow := 5000 }).2 := by
  have h := c7_future_begin_amended
  exact ⟨(h.1 c7EditModel 900 rfl (by decide)).1,
         (h.1 c7EditModel 900 rfl (by decide)).2,
         h.2.1 c7Model 500 5000⟩

/-- C9: with no open entry the active subcommand prints nothing; with an
open entry it prints the template with the first task placeholder
substituted by the active task summary and the first time placeholder by
the humanized elapsed time since the entry began, durations up to a
minute shown as <1m. -/
theorem c9_show_active_task (s : Store) (template : String) (now : Int) :
    ((∀ e ∈ s.logs, e.activeFlag = false) →
       ShowActiveTask (FetchActiveTaskDetails s) template now = "") ∧
    (∀ e, s.logs.find? (fun e => e.activeFlag) = some e →
       ShowActiveTask (FetchActiveTaskDetails s) template now
         = replaceFirst
             (replaceFirst template ActiveTaskPlaceholder
               (taskSummaryOf s.tasks e.taskId))
             ActiveTaskTimePlaceholder
             (if now - e.beginTs ≤ 60 then "<1m"
              else HumanizeDuration (now - e.beginTs).toNat)) := by
  constructor
  · intro hall
    have hnone : s.logs.find? (fun e => e.activeFlag) = none := by
      rw [List.find?_eq_none]
      intro x hx
      simp [hall x hx]
    unfold ShowActiveTask FetchActiveTaskDetails
    rw [hnone]
    rfl
  · intro e hfind
    unfold ShowActiveTask FetchActiveTaskDetails
    rw [hfind]
    dsimp only
    rw [if_neg (by omega)]
    rfl

/-- Concrete store with an open entry on a task called work. -/
def witnessStoreC9 : Store :=
  { tasks := [{ id := 3, summary := "work", secsSpent := 0, active := true }],
    logs := [{ id := 0, taskId := 3, beginTs := 1000, endTs := none,
               secsSpent := 0, comment := some "note", activeFlag := true }],
    nextLogId := 1 }

/-- Concrete template carrying both placeholders. -/
def witnessTemplateC9 : String :=
  ActiveTaskPlaceholder ++ " - " ++ ActiveTaskTimePlaceholder

theorem c9_show_active_task_witness :
    ShowActiveTask (FetchActiveTaskDetails witnessStoreC9) witnessTemplateC9 5200
        = "work - 1h 10m" ∧
      ShowActiveTask (FetchActiveTaskDetails witnessStore) witnessTemplateC9 5200
        = "" := by
  constructor
  · rw [(c9_show_active_task witnessStoreC9 witnessTemplateC9 5200).2
      { id := 0, taskId := 3, beginTs := 1000, endTs := none,
        secsSpent := 0, comment := some "note", activeFlag := true } rfl]
    rfl
  · exact (c9_show_active_task witnessStore witnessTemplateC9 5200).1
      (by intro e he; cases he)

/-- C10: every task-log form submission saves the comment through
commentPtrFromInput; a comment input that is empty or only white space
is saved as an absent comment, and any other input is saved trimmed of
surrounding white space (nonempty, no leading or trailing space). -/
theorem c10_comment_normalization :
    (∀ s : String, s.data.all isSpaceChar = true →
       commentPtrFromInput s = none) ∧
    (∀ s : String, s.data.all isSpaceChar = false →
       commentPtrFromInput s = some (goTrimSpace s) ∧
       (goTrimSpace s).data ≠ [] ∧
       (∀ c, (goTrimSpace s).data.head? = some c → isSpaceChar c = false) ∧
       (∀ c, (goTrimSpace s).data.getLast? = some c →
          isSpaceChar c = false)) ∧
    (∀ m b c, (getCmdToUpdateActiveTL m).2 = some (.updateActiveTL b c) →
       c = commentPtrFromInput m.tLCommentInput) ∧
    (∀ m tid b e c, (getCmdToFinishTrackingActiveTL m).2
         = some (.toggleTracking tid b e c) →
       c = commentPtrFromInput m.tLCommentInput) ∧
    (∀ m tid b e c, (getCmdToCreateOrEditTL m).2
         = some (.insertManualTL tid b e c) →
       c = commentPtrFromInput m.tLCommentInput) ∧
    (∀ m i tid b e c, (getCmdToCreateOrEditTL m).2
         = some (.editSavedTL i tid b e c) →
       c = commentPtrFromInput m.tLCommentInput) := by
  refine ⟨?_, ?_, ?_, ?_, ?_, ?_⟩
  · intro s hall
    have h1 : trimLeftL s.data = [] := trimLeftL_eq_nil.mpr hall
    have h2 : goTrimSpace s = "" := by
      unfold goTrimSpace
      rw [h1]
      rfl
    unfold commentPtrFromInput
    dsimp only
    rw [if_pos h2]
  · intro s hall
    have hdata : (goTrimSpace s).data = trimRightL (trimLeftL s.data) := rfl
    have hne : (goTrimSpace s).data ≠ [] := by
      rw [hdata]
      intro hc
      have := trimRightL_eq_nil.mp hc
      rw [trimLeftL_all_false hall] at this
      cases this
    have hnes : goTrimSpace s ≠ "" := by
      intro hc
      apply hne
      rw [hc]
    refine ⟨?_, hne, ?_, ?_⟩
    · unfold commentPtrFromInput
      dsimp only
      rw [if_neg hnes]
    · intro c hc
      have hne2 : trimRightL (trimLeftL s.data) ≠ [] := by
        rw [← hdata]
        exact hne
      have hheads := prefix_head_eq (prefix_trimRightL (trimLeftL s.data)) hne2
      rw [hdata, hheads] at hc
      exact trimLeftL_head_not_space hc
    · intro c hc
      rw [hdata] at hc
      exact trimRightL_getLast_not_space hc
  · intro m b c h
    unfold getCmdToUpdateActiveTL at h
    cases hb : m.tLBeginInput with
    | none =>
      rw [hb] at h
      simp at h
    | some bt =>
      rw [hb] at h
      dsimp only at h
      by_cases hf : m.timeNow < bt
      · rw [if_pos hf] at h
        simp at h
      · rw [if_neg hf] at h
        simp only [Option.some.injEq, TeaCmd.updateActiveTL.injEq] at h
        exact h.2.symm
  · intro m tid b e c h
    unfold getCmdToFinishTrackingActiveTL at h
    cases hp : ParseTaskLogTimes m.tLBeginInput m.tLEndInput with
    | error msg =>
      rw [hp] at h
      simp at h
    | ok p =>
      obtain ⟨bt, et⟩ := p
      rw [hp] at h
      simp only [Option.some.injEq, TeaCmd.toggleTracking.injEq] at h
      exact h.2.2.2.symm
  · intro m tid b e c h
    unfold getCmdToCreateOrEditTL at h
    cases hp : ParseTaskLogTimes m.tLBeginInput m.tLEndInput with
    | error msg =>
      rw [hp] at h
      simp at h
    | ok p =>
      obtain ⟨bt, et⟩ := p
      rw [hp] at h
      dsimp only at h
      cases hsave : m.tasklogSaveType with
      | tasklogInsert =>
        rw [hsave] at h
        cases hsel : m.selActiveTask with
        | none =>
          rw [hsel] at h
          simp at h
        | some task =>
          rw [hsel] at h
          dsimp only at h
          simp only [Option.some.injEq, TeaCmd.insertManualTL.injEq] at h
          exact h.2.2.2.symm
      | tasklogUpdate =>
        rw [hsave] at h
        cases hsel : m.selTaskLogEntry with
        | none =>
          rw [hsel] at h
          simp at h
        | some tl =>
          rw [hsel] at h
          simp at h
  · intro m i tid b e c h
    unfold getCmdToCreateOrEditTL at h
    cases hp : ParseTaskLogTimes m.tLBeginInput m.tLEndInput with
    | error msg =>
      rw [hp] at h
      simp at h
    | ok p =>
      obtain ⟨bt, et⟩ := p
      rw [hp] at h
      dsimp only at h
      cases hsave : m.tasklogSaveType with
      | tasklogInsert =>
        rw [hsave] at h
        cases hsel : m.selActiveTask with
        | none =>
          rw [hsel] at h
          simp at h
        | some task =>
          rw [hsel] at h
          simp at h
      | tasklogUpdate =>
        rw [hsave] at h
        cases hsel : m.selTaskLogEntry with
        | none =>
          rw [hsel] at h
          simp at h
        | some tl =>
          rw [hsel] at h
          dsimp only at h
          simp only [Option.some.injEq, TeaCmd.editSavedTL.injEq] at h
          exact h.2.2.2.2.symm

/-- Two ideographic space characters (U+3000), written by code point so
no invisible character sits in a literal. -/
def ideographicSpaces : String := ⟨[Char.ofNat 12288, Char.ofNat 12288]⟩

theorem c10_comment_normalization_witness :
    commentPtrFromInput "   " = none ∧
      commentPtrFromInput ideographicSpaces = none ∧
      commentPtrFromInput "  fix bug  " = some "fix bug" := by
  have h := c10_comment_normalization
  refine ⟨h.1 "   " (by decide), h.1 ideographicSpaces (by decide), ?_⟩
  rw [(h.2.1 "  fix bug  " (by decide)).1]
  rfl

end Hours
